import Mathlib

/-!
Verification of `curriculum/getChallenges.js` (freeCodeCamp curriculum build).

The file shallowly embeds the data model and the operations of
`src/curriculum/getChallenges.js`: string/path helpers mirror the JavaScript
string primitives the code uses (`String.prototype.split`, `Array.prototype.join`,
`parseInt`, Node's `path.extname`), JavaScript objects used as maps become
insertion-ordered association lists, thrown errors become `Except`/explicit
result constructors, and the external collaborators the module imports
(markdown parsers, slug helpers, the audit table, the filesystem) become
explicit function parameters gathered in an environment structure.
-/

set_option autoImplicit false
set_option maxRecDepth 16384

namespace FCC

deriving instance DecidableEq for Except

/-! ## JavaScript string primitives -/

/-- `String.prototype.split(sep)` for a one-character separator, on character
lists.  `""` splits to `[[]]`, a trailing separator yields a trailing empty
group, exactly as in JavaScript. -/
def splitOnChar (c : Char) : List Char → List (List Char)
  | [] => [[]]
  | a :: rest =>
    let r := splitOnChar c rest
    if a == c then [] :: r
    else
      match r with
      | [] => [[a]]
      | g :: gs => (a :: g) :: gs

/-- `String.prototype.split` with a one-character separator, on strings. -/
def jsSplit (c : Char) (s : String) : List String :=
  (splitOnChar c s.data).map (fun g => String.mk g)

/-- `Array.prototype.join(sep)`. -/
def joinWith (sep : String) : List String → String
  | [] => ""
  | [s] => s
  | s :: rest => s ++ sep ++ joinWith sep rest

/-- `joinWith` at the character level (specification-side helper used to
prove that joining the groups of `splitOnChar` restores the string). -/
def joinChar (c : Char) : List (List Char) → List Char
  | [] => []
  | [g] => g
  | g :: gs => g ++ c :: joinChar c gs

/-- Value of a decimal digit character. -/
def digitVal (c : Char) : Nat := c.toNat - 48

/-- Numeric value of a list of decimal digit characters. -/
def digitsToNat (ds : List Char) : Nat := ds.foldl (fun a c => a * 10 + digitVal c) 0

/-- The maximal leading run of decimal digits, or `none` when there is none. -/
def parseDigits (cs : List Char) : Option Nat :=
  let ds := cs.takeWhile (fun c => c.isDigit)
  if ds.isEmpty then none else some (digitsToNat ds)

/-- JavaScript `parseInt(s, 10)`: skip leading whitespace, read an optional
sign and then the maximal run of decimal digits; `none` models `NaN`. -/
def parseInt10 (s : String) : Option Int :=
  let cs := s.data.dropWhile (fun c => c == ' ' || c == '\t' || c == '\n' || c == '\r')
  match cs with
  | '-' :: rest => (parseDigits rest).map (fun n => -(n : Int))
  | '+' :: rest => (parseDigits rest).map (fun n => (n : Int))
  | _ => (parseDigits cs).map (fun n => (n : Int))

/-! ## `superBlockInfo` and path helpers -/

/-- Result of `superBlockInfo`: `{ order, name }`. -/
structure SuperBlockInfo where
  order : Int
  name : String
deriving Repr, DecidableEq

/-- `superBlockInfo(fileName)`: split the directory name on `-`; if the first
segment does not `parseInt` (`isNaN(order)`), order `0` and the whole name;
otherwise the parsed order and the remaining segments re-joined with `-`. -/
def superBlockInfo (fileName : String) : SuperBlockInfo :=
  match jsSplit '-' fileName with
  | [] => { order := 0, name := fileName }
  | maybeOrder :: superBlock =>
    match parseInt10 maybeOrder with
    | none => { order := 0, name := fileName }
    | some o => { order := o, name := joinWith "-" superBlock }

/-- `filePath.split(path.sep)` with the POSIX separator. -/
def splitPath (filePath : String) : List String := jsSplit '/' filePath

/-- `superBlockInfoFromPath(filePath)`: `superBlockInfo` of the first path
component. -/
def superBlockInfoFromPath (filePath : String) : SuperBlockInfo :=
  superBlockInfo ((splitPath filePath).headD "")

/-- `getBlockNameFromPath(filePath)`: the second path component.  (JavaScript
destructuring would yield `undefined` when the path has fewer than two
components; the paths handled by the build always have the component, and the
empty string stands in for `undefined` as a key that is never present.) -/
def getBlockNameFromPath (filePath : String) : String :=
  (splitPath filePath).getD 1 ""

/-! ## Node's `path.extname` and the certificate test -/

/-- Node's `path.extname`: ignore trailing separators, take the basename, and
return the substring from its last `.` (inclusive) to the end; the empty
string when the basename has no `.`, when its only `.` is its first character
(a dotfile such as `.markdown`), or when the basename is exactly `..`. -/
def extname (p : String) : String :=
  let revNoSlash := p.data.reverse.dropWhile (fun c => c == '/')
  let baseRev := revNoSlash.takeWhile (fun c => c != '/')
  let afterDotRev := baseRev.takeWhile (fun c => c != '.')
  if afterDotRev.length == baseRev.length then ""
  else if afterDotRev.length + 1 == baseRev.length then ""
  else if baseRev == ['.', '.'] then ""
  else String.mk ('.' :: afterDotRev.reverse)

/-- `const isCert = path.extname(filePath) === 'markdown'` (line 251 of the
source, compared verbatim against the string without a leading dot). -/
def isCert (filePath : String) : Bool := extname filePath == "markdown"

/-! ## JavaScript objects as insertion-ordered association lists

A JavaScript object used as a string-keyed map keeps its keys in insertion
order; assigning to an existing key overwrites the value in place, assigning
a fresh key appends it.  `assocGet` models property reads, `assocSet` models
`obj[k] = v` (and the spread `{ ...obj, [k]: v }`), `jsSpreadMerge` models
spreading one object over another. -/

/-- Property read on an object-as-map: the value at the first occurrence of
the key. -/
def assocGet {β : Type} : List (String × β) → String → Option β
  | [], _ => none
  | p :: l, k => if p.1 == k then some p.2 else assocGet l k

/-- Property write on an object-as-map, `obj[k] = v` and `{ ...obj, [k]: v }`:
a JavaScript object keeps an existing key at its position and overwrites its
value, and appends a fresh key.  (Objects never hold a key twice, so lists
built by `assocSet` have no duplicate keys and replacing the first occurrence
is the general object semantics.) -/
def assocSet {β : Type} : List (String × β) → String → β → List (String × β)
  | [], k, v => [(k, v)]
  | p :: l, k, v => if p.1 == k then (k, v) :: l else p :: assocSet l k v

/-- `{ ...a, ...b }`: write each entry of `b` into `a`, in order. -/
def jsSpreadMerge {β : Type} (a b : List (String × β)) : List (String × β) :=
  b.foldl (fun acc kv => assocSet acc kv.1 kv.2) a

/-! ## lodash `findIndex` -/

/-- lodash `findIndex` scan, carrying the current index. -/
def findIndexJsAux {α : Type} (p : α → Bool) : List α → Int → Int
  | [], _ => -1
  | a :: l, i => if p a then i else findIndexJsAux p l (i + 1)

/-- lodash `findIndex(list, pred)`: index of the first match, `-1` if none. -/
def findIndexJs {α : Type} (p : α → Bool) (l : List α) : Int :=
  findIndexJsAux p l 0

/-- Specification-level "index of the first entry satisfying the predicate",
written after the spec's words to compare with the lodash scan. -/
def firstMatchingIndex {α : Type} (p : α → Bool) : List α → Option Nat
  | [] => none
  | a :: l => if p a then some 0 else (firstMatchingIndex p l).map (fun i => i + 1)

/-! ## Data model

The challenge record carries the fields `getChallenges.js` reads or writes.
The markdown parsers, the slug helpers (`dasherize`, `nameify`,
`blockNameify`), the audit table `isAuditedCert`, the help-category table and
the filesystem probe are external collaborators of the module and enter the
embedding as function parameters collected in `Env`. -/

/-- A JavaScript value that is a string, an array of strings, or `undefined`
(the shapes `arrToString` receives). -/
inductive JsStrVal where
  | arr (xs : List String)
  | str (s : String)
  | undef
deriving Repr, DecidableEq

/-- A challenge file as parsed from markdown (`files`/`solutionFiles`
entries before normalization). -/
structure FileSeq where
  key : String
  head : JsStrVal
  contents : JsStrVal
  tail : JsStrVal
deriving Repr, DecidableEq

/-- A challenge file after `filesToObject` (multi-line fields stringified). -/
structure PolyFile where
  key : String
  head : String
  contents : String
  tail : String
deriving Repr, DecidableEq

/-- A challenge file after `prepareChallenge` attached the `seed` copy. -/
structure PreparedFile where
  key : String
  head : String
  contents : String
  tail : String
  seed : String
deriving Repr, DecidableEq

/-- One entry of the block metadata's `challengeOrder` list (`[id, title]`;
the code destructures only the id component). -/
structure ChallengeOrderEntry where
  id : String
  title : String
deriving Repr, DecidableEq

/-- The block metadata descriptor (`meta.json`) fields the module consumes.
`isUpcomingChange` is `none` when the descriptor lacks a boolean-typed value
there (`typeof isUpcomingChange !== 'boolean'`). -/
structure ChallengeMeta where
  name : String
  isUpcomingChange : Option Bool
  challengeOrder : List ChallengeOrderEntry
  order : Int
  superOrder : Int
  isPrivate : Bool
  required : List String
  template : String
  time : String
deriving Repr, DecidableEq

/-- A parsed challenge, as produced by the parsers and decorated by
`createChallenge`.  `comments` stands for the code comments carried in the
challenge's seed code, the part the translation pipeline rewrites. -/
structure Challenge where
  id : String
  title : String
  originalTitle : String
  challengeType : Int
  comments : List String
  files : Option (List FileSeq)
  solutionFiles : Option (List FileSeq)
  block : String
  superBlock : String
  dashedName : String
  order : Int
  superOrder : Int
  challengeOrder : Int
  isPrivate : Bool
  required : List String
  template : String
  time : String
  helpCategory : Option String
deriving Repr, DecidableEq

/-- A challenge after `prepareChallenge`: `name` derived, file collections
keyed, `originalTitle` deleted. -/
structure PreparedChallenge where
  id : String
  title : String
  challengeType : Int
  comments : List String
  name : String
  files : Option (List (String × PreparedFile))
  solutionFiles : Option (List (String × PolyFile))
  block : String
  superBlock : String
  dashedName : String
  order : Int
  superOrder : Int
  challengeOrder : Int
  isPrivate : Bool
  required : List String
  template : String
  time : String
  helpCategory : Option String
deriving Repr, DecidableEq

/-! ## Challenge preparer -/

/-- `arrToString(arr)`: `Array.isArray(arr) ? arr.join('\n') : toString(arr)`
(lodash `toString` maps `undefined` to the empty string and keeps strings). -/
def arrToString : JsStrVal → String
  | .arr xs => joinWith "\n" xs
  | .str s => s
  | .undef => ""

/-- `filesToObject(files)`: reduce the sequence into a keyed object,
stringifying `head`, `contents` and `tail` (the spread keeps the key). -/
def filesToObject (files : List FileSeq) : List (String × PolyFile) :=
  files.foldl
    (fun m f =>
      assocSet m f.key
        { key := f.key
          head := arrToString f.head
          contents := arrToString f.contents
          tail := arrToString f.tail })
    []

/-- Modelled from the spec: `createPoly` comes from `utils/polyvinyl`, which
is not under `src/`.  The spec describes the preparer as normalizing the file
collection into a keyed mapping "while stringifying multi-line fields" and
attaching "seed content as an independent copy of the original contents", so
`createPoly` carries the file's `key`/`head`/`contents`/`tail` through
unchanged and the preparer adds `seed := contents.slice(0)` — a copy of the
contents string, which a later write to `contents` cannot affect. -/
def polyWithSeed (f : PolyFile) : PreparedFile :=
  { key := f.key, head := f.head, contents := f.contents, tail := f.tail, seed := f.contents }

/-- The `challenge.files` normalization inside `prepareChallenge`: every
value of the keyed object is truthy, so the `filter` keeps all keys, and the
`map`/`reduce` rebuilds the object in the same key order with
`{ ...createPoly(file), seed: file.contents.slice(0) }` as values. -/
def prepareFiles (files : List (String × PolyFile)) : List (String × PreparedFile) :=
  files.foldl (fun acc kv => assocSet acc kv.2.key (polyWithSeed kv.2)) []

/-! ## External collaborators -/

/-- Modelled from the spec: `supportedLangs` comes from `curriculum/utils`,
which is not under `src/`.  The spec says challenge creation "Validates
requested language is in a supported-language set" and counts "unsupported
language" among the configuration errors, so the set is a fixed finite list
of language names containing `"english"` and the translation languages and
excluding everything else. -/
def supportedLangs : List String :=
  ["arabic", "chinese", "english", "portuguese", "russian", "spanish"]

/-- The comment dictionary produced by `createCommentMap`: English comment
text to (language to translated text). -/
abbrev CMap := List (String × List (String × String))

/-- The external collaborators of `getChallenges.js`, as explicit functions:
the two markdown parsers, the audit table, the slug helpers, the
help-category table, the filesystem probe behind `hasEnglishSourceCreator`,
the `require`d block metadata, and the environment toggle
(`process.env.SHOW_UPCOMING_CHANGES`, `none` when unset). -/
structure Env where
  parseMD : String → Challenge
  parseMarkdown : String → Challenge
  isAuditedCert : String → String → Bool
  hasEnglishSource : String → Bool
  commentTranslations : CMap
  dasherize : String → String
  nameify : String → String
  blockNameify : String → String
  helpCategoryMap : String → Option String
  metaFor : String → ChallengeMeta
  showUpcomingChangesVar : Option String

/-- `prepareChallenge(challenge)`: derive the display name, normalize the
file collections, dasherize the block name, block-nameify the superblock
name; `originalTitle` was deleted by `createChallenge` and the prepared
record drops it. -/
def prepareChallenge (env : Env) (c : Challenge) : PreparedChallenge :=
  { id := c.id
    title := c.title
    challengeType := c.challengeType
    comments := c.comments
    name := env.nameify c.title
    files := c.files.map (fun fs => prepareFiles (filesToObject fs))
    solutionFiles := c.solutionFiles.map filesToObject
    block := env.dasherize c.block
    superBlock := env.blockNameify c.superBlock
    dashedName := c.dashedName
    order := c.order
    superOrder := c.superOrder
    challengeOrder := c.challengeOrder
    isPrivate := c.isPrivate
    required := c.required
    template := c.template
    time := c.time
    helpCategory := c.helpCategory }

/-! ## Translation merge -/

/-- Modelled from the spec: `translateCommentsInChallenge` comes from the
translation parser, which is not under `src/`.  The spec says the merger
"rewrites English-side code comments to the target language by dictionary
lookup", so each comment is replaced by its dictionary entry for the target
language (and kept as-is when the dictionary has no entry, a case the spec
does not reach because the dictionary construction is total on translatable
comments). -/
def translateCommentsInChallenge (chal : Challenge) (lang : String) (dict : CMap) : Challenge :=
  { chal with
    comments := chal.comments.map
      (fun c => ((assocGet dict c).bind (fun entry => assocGet entry lang)).getD c) }

/-- Modelled from the spec: `mergeChallenges` comes from the translation
parser, which is not under `src/`.  The spec fixes of the merge contract
only that "comments from English-translated, everything else authoritative
from the target-language parse", and that for video-type challenges
(challengeType 11, which carry no seed code) the "merged output's comments
equal the translated file's own comments, not English's". -/
def mergeChallenges (engChal translatedChal : Challenge) : Challenge :=
  { translatedChal with
    comments := if engChal.challengeType == 11 then translatedChal.comments else engChal.comments }

/-- `parseTranslation(engPath, transPath, dict, lang, parse)`: parse both
sides; unless the English challenge is a video challenge (challengeType 11),
rewrite its comments into the target language; merge. -/
def parseTranslation (parse : String → Challenge) (engPath transPath : String)
    (dict : CMap) (lang : String) : Challenge :=
  let engChal := parse engPath
  let translatedChal := parse transPath
  let engWithTranslatedComments :=
    if engChal.challengeType != 11 then translateCommentsInChallenge engChal lang dict
    else engChal
  mergeChallenges engWithTranslatedComments translatedChal

/-! ## Challenge creator -/

/-- `getFullPath(pathLang)` inside `createChallenge`:
`path.resolve(__dirname, basePath, pathLang, filePath)` with an absolute
`basePath` resolves to joining the three with separators. -/
def getFullPath (basePath pathLang filePath : String) : String :=
  basePath ++ "/" ++ pathLang ++ "/" ++ filePath

/-- The message of the unsupported-language error (source lines 239-240). -/
def unsupportedLangMsg (lang filePath : String) : String :=
  lang ++ " is not a accepted language.\n  Trying to parse " ++ filePath

/-- The message of the missing-English-source error (source lines 242-246). -/
def missingEnglishMsg (filePath englishPath : String) : String :=
  "Missing English challenge for\n" ++ filePath ++ "\nIt should be in\n" ++ englishPath ++ "\n"

/-- The metadata `meta` used by `createChallenge`: the one passed in, else
the one `require`d from the block's `meta.json`. -/
def effectiveMeta (env : Env) (filePath : String) (maybeMeta : Option ChallengeMeta) :
    ChallengeMeta :=
  match maybeMeta with
  | some m => m
  | none => env.metaFor (getBlockNameFromPath filePath)

/-- The parse-and-dispatch block of `createChallenge` (source lines 250-273):
English (or an unaudited certification) uses the English source directly,
otherwise the translation merger runs on both paths; `isCert` selects
`parseMarkdown` over `parseMD`. -/
def parsedChallenge (env : Env) (basePath lang filePath : String) : Challenge :=
  let superBlock := (superBlockInfoFromPath filePath).name
  let useEnglish := lang == "english" || !(env.isAuditedCert lang superBlock)
  if isCert filePath then
    if useEnglish then env.parseMarkdown (getFullPath basePath "english" filePath)
    else
      parseTranslation env.parseMarkdown (getFullPath basePath "english" filePath)
        (getFullPath basePath lang filePath) env.commentTranslations lang
  else
    if useEnglish then env.parseMD (getFullPath basePath "english" filePath)
    else
      parseTranslation env.parseMD (getFullPath basePath "english" filePath)
        (getFullPath basePath lang filePath) env.commentTranslations lang

/-- The decoration step of `createChallenge` (source lines 274-303): the
parsed challenge with the block-level metadata fields and the
`challengeOrder` index written onto it (`originalTitle` is deleted right
after `dashedName` is derived from it). -/
def decoratedChallenge (env : Env) (basePath lang filePath : String)
    (maybeMeta : Option ChallengeMeta) : Challenge :=
  let meta := effectiveMeta env filePath maybeMeta
  let challenge := parsedChallenge env basePath lang filePath
  let challengeOrder := findIndexJs (fun e => e.id == challenge.id) meta.challengeOrder
  { challenge with
    block := meta.name
    dashedName :=
      if lang == "english" then env.dasherize challenge.title
      else env.dasherize challenge.originalTitle
    originalTitle := ""
    order := meta.order
    superOrder := meta.superOrder
    superBlock := (superBlockInfoFromPath filePath).name
    challengeOrder := challengeOrder
    isPrivate := challenge.isPrivate || meta.isPrivate
    required := meta.required ++ challenge.required
    template := meta.template
    time := meta.time
    helpCategory :=
      match challenge.helpCategory with
      | some h => some h
      | none => env.helpCategoryMap (env.dasherize meta.name) }

/-- `createChallenge(filePath, maybeMeta)` as produced by
`createChallengeCreator(basePath, lang)`: resolve the metadata, validate the
language, require an English counterpart for non-English leaves, parse via
the dispatch block, decorate with block-level fields and the
`challengeOrder` index, and prepare. -/
def createChallenge (env : Env) (basePath lang filePath : String)
    (maybeMeta : Option ChallengeMeta) : Except String PreparedChallenge :=
  if !(supportedLangs.contains lang) then
    .error (unsupportedLangMsg lang filePath)
  else if lang != "english" && !(env.hasEnglishSource filePath) then
    .error (missingEnglishMsg filePath (getFullPath basePath "english" filePath))
  else
    .ok (prepareChallenge env (decoratedChallenge env basePath lang filePath maybeMeta))

/-! ## Curriculum builder -/

/-- A block inside a superblock: its metadata and its challenge list. -/
structure BlockInfo where
  meta : ChallengeMeta
  challenges : List PreparedChallenge
deriving Repr, DecidableEq

/-- A superblock entry: `{ superBlock, order, blocks: {} }`. -/
structure SuperBlockEntry where
  superBlock : String
  order : Int
  blocks : List (String × BlockInfo)
deriving Repr, DecidableEq

/-- The curriculum object: superblock name to superblock entry. -/
abbrev Curriculum := List (String × SuperBlockEntry)

/-- Outcome of one `buildCurriculum` call: the updated curriculum, a thrown
`Error` with its message, a `TypeError` from a property access on
`undefined`, or `process.exit(1)` from the superblock-lookup catch. -/
inductive BuildResult where
  | ok (c : Curriculum)
  | err (msg : String)
  | typeError
  | exit
deriving Repr, DecidableEq

/-- The metadata path the depth-2 branch `require`s and names in its error:
`./challenges/_meta/` then the block name then `/meta.json`, relative to the
module directory. -/
def metaPathOf (blockName : String) : String :=
  "challenges/_meta/" ++ blockName ++ "/meta.json"

/-- The message of the missing-`isUpcomingChange` error (source lines
161-163). -/
def missingUpcomingChangeMsg (metaPath : String) : String :=
  "meta file at " ++ metaPath ++ " is missing " ++
    "'isUpcomingChange', it must be 'true' or 'false'"

/-- A walker event: `{ name, depth, path, stat }`. -/
structure WalkFile where
  name : String
  depth : Nat
  path : String
  isDirectory : Bool
deriving Repr, DecidableEq

/-- `buildCurriculum(file, curriculum, lang)`: depth-1 directories create a
superblock entry; depth-2 directories validate `isUpcomingChange` and add
the block unless it is an upcoming change with the toggle off; `meta.json`
and `.DS_Store` leaves are skipped; other leaves are appended to their
block's challenge list, skipped silently when the block is absent, and fatal
(`process.exit(1)`) when the superblock is absent. -/
def buildCurriculum (env : Env) (basePath lang : String) (file : WalkFile)
    (curriculum : Curriculum) : BuildResult :=
  if file.depth == 1 && file.isDirectory then
    let info := superBlockInfo file.name
    .ok (assocSet curriculum info.name
      { superBlock := info.name, order := info.order, blocks := [] })
  else if file.depth == 2 && file.isDirectory then
    let blockName := getBlockNameFromPath file.path
    let blockMeta := env.metaFor blockName
    match blockMeta.isUpcomingChange with
    | none => .err (missingUpcomingChangeMsg (metaPathOf blockName))
    | some isUpcomingChange =>
      if !isUpcomingChange || env.showUpcomingChangesVar == some "true" then
        let sbName := (superBlockInfoFromPath file.path).name
        match assocGet curriculum sbName with
        | none => .typeError
        | some sbEntry =>
          .ok (assocSet curriculum sbName
            { sbEntry with
              blocks := assocSet sbEntry.blocks file.name
                { meta := blockMeta, challenges := [] } })
      else .ok curriculum
  else if file.name == "meta.json" || file.name == ".DS_Store" then .ok curriculum
  else
    let block := getBlockNameFromPath file.path
    let sbName := (superBlockInfoFromPath file.path).name
    match assocGet curriculum sbName with
    | none => .exit
    | some sbEntry =>
      match assocGet sbEntry.blocks block with
      | none => .ok curriculum
      | some challengeBlock =>
        match createChallenge env basePath lang file.path (some challengeBlock.meta) with
        | .error msg => .err msg
        | .ok ch =>
          .ok (assocSet curriculum sbName
            { sbEntry with
              blocks := assocSet sbEntry.blocks block
                { challengeBlock with
                  challenges := challengeBlock.challenges ++ [ch] } })

/-! ## Comment dictionary builder -/

/-- A dictionary entry `{ id, text }` (both for the English canonical lists
and the per-language dictionaries). -/
structure CommentEntry where
  id : String
  text : String
deriving Repr, DecidableEq

/-- The message of the missing-translation error (source lines 105-107). -/
def missingTranslationMsg (text engId : String) : String :=
  "Missing translation for comment\n'" ++ text ++ "'\n        with id of " ++ engId

/-- The reduce inside `getTranslationEntry`: walk the language dictionaries
in order, record the id-matched entry's text per language, and throw on the
first language whose dictionary has no entry with the English id. -/
def getTranslationEntryAux (engId text : String) :
    List (String × List CommentEntry) → List (String × String) →
      Except String (List (String × String))
  | [], acc => .ok acc
  | (lang, entries) :: rest, acc =>
    match entries.find? (fun e => e.id == engId) with
    | some entry => getTranslationEntryAux engId text rest (assocSet acc lang entry.text)
    | none => .error (missingTranslationMsg text engId)

/-- `getTranslationEntry(dicts, { engId, text })`. -/
def getTranslationEntry (dicts : List (String × List CommentEntry)) (engId text : String) :
    Except String (List (String × String)) :=
  getTranslationEntryAux engId text dicts []

/-- The reduce building `translatedCommentMap`: English comment text to its
per-language translation entry, failing as soon as `getTranslationEntry`
throws. -/
def translatedCommentMapAux (dicts : List (String × List CommentEntry)) :
    List CommentEntry → CMap → Except String CMap
  | [], acc => .ok acc
  | e :: rest, acc =>
    match getTranslationEntry dicts e.id e.text with
    | .ok entry => translatedCommentMapAux dicts rest (assocSet acc e.text entry)
    | .error msg => .error msg

/-- The `englishEntry` built for a non-translatable comment: every language
maps to the English text itself. -/
def englishEntryFor (langs : List String) (text : String) : List (String × String) :=
  jsSpreadMerge [] (langs.map (fun lang => (lang, text)))

/-- `untranslatableCommentMap`: English comment text to itself for every
language. -/
def untranslatableCommentMap (langs : List String) (toNot : List CommentEntry) : CMap :=
  jsSpreadMerge [] (toNot.map (fun e => (e.text, englishEntryFor langs e.text)))

/-- `createCommentMap(dictionariesDir)`: `langs` is the list of language
directories other than `english`, `dictOf` the `require`d dictionary of each
language, and `toTranslate`/`toNot` the English canonical lists
`COMMENTS_TO_TRANSLATE`/`COMMENTS_TO_NOT_TRANSLATE`.  The translatable map
is built first (throwing on a missing id) and the untranslatable map is
spread over it. -/
def createCommentMap (langs : List String) (dictOf : String → List CommentEntry)
    (toTranslate toNot : List CommentEntry) : Except String CMap :=
  let dicts := langs.map (fun lang => (lang, dictOf lang))
  match translatedCommentMapAux dicts toTranslate [] with
  | .error msg => .error msg
  | .ok tmap => .ok (jsSpreadMerge tmap (untranslatableCommentMap langs toNot))

/-- Comment lookup in the final map: text, then language. -/
def lookupComment (m : CMap) (text lang : String) : Option String :=
  (assocGet m text).bind (fun entry => assocGet entry lang)

/-! ## Concrete sample data (used by witnesses and counterexamples) -/

/-- A challenge record with every field blank. -/
def blankChallenge : Challenge :=
  { id := "", title := "", originalTitle := "", challengeType := 0, comments := []
    files := none, solutionFiles := none, block := "", superBlock := "", dashedName := ""
    order := 0, superOrder := 0, challengeOrder := -1, isPrivate := false, required := []
    template := "", time := "", helpCategory := none }

/-- A challenge recognizable as the output of the standard parser `parseMD`. -/
def mdChallenge : Challenge := { blankChallenge with id := "from-parseMD" }

/-- A challenge recognizable as the output of the certificate parser
`parseMarkdown`. -/
def markdownChallenge : Challenge := { blankChallenge with id := "from-parseMarkdown" }

/-- A block metadata descriptor with a boolean `isUpcomingChange`. -/
def sampleMeta : ChallengeMeta :=
  { name := "Basic HTML", isUpcomingChange := some false, challengeOrder := []
    order := 1, superOrder := 1, isPrivate := false, required := [], template := "", time := "5" }

/-- A block metadata descriptor whose `challengeOrder` list names no
challenge the sample parsers produce. -/
def orderMeta : ChallengeMeta :=
  { sampleMeta with challengeOrder := [{ id := "other-id", title := "Other" }] }

/-- A concrete environment: distinguishable parsers, every English source
present, identity slug helpers, no audits, toggle unset. -/
def sampleEnv : Env :=
  { parseMD := fun _ => mdChallenge
    parseMarkdown := fun _ => markdownChallenge
    isAuditedCert := fun _ _ => false
    hasEnglishSource := fun _ => true
    commentTranslations := []
    dasherize := fun s => s
    nameify := fun s => s
    blockNameify := fun s => s
    helpCategoryMap := fun _ => none
    metaFor := fun _ => sampleMeta
    showUpcomingChangesVar := none }

/-- `sampleEnv` with every English counterpart absent. -/
def noEnglishEnv : Env := { sampleEnv with hasEnglishSource := fun _ => false }

/-- `sampleEnv` whose block metadata lacks a boolean `isUpcomingChange`. -/
def noBooleanEnv : Env :=
  { sampleEnv with metaFor := fun _ => { sampleMeta with isUpcomingChange := none } }

/-- `sampleEnv` whose block metadata declares an upcoming change. -/
def upcomingEnv : Env :=
  { sampleEnv with metaFor := fun _ => { sampleMeta with isUpcomingChange := some true } }

/-- A challenge whose `files` field is the round-trip example of the spec. -/
def roundTripChallenge : Challenge :=
  { blankChallenge with
    files := some [{ key := "a", head := .arr [], contents := .arr ["x"], tail := .arr [] }] }

/-- An English-side video challenge (challengeType 11). -/
def videoEngChallenge : Challenge :=
  { blankChallenge with challengeType := 11, comments := ["english comment"] }

/-- A translated-side challenge with its own comments. -/
def spanishTransChallenge : Challenge := { blankChallenge with comments := ["comentario"] }

/-- A parser returning the video challenge for the English path and the
translated challenge otherwise. -/
def videoParse : String → Challenge :=
  fun p => if p == "english-path" then videoEngChallenge else spanishTransChallenge

/-- A depth-2 directory event for a block under superblock `01-sb`. -/
def blockDirFile : WalkFile :=
  { name := "basic-block", depth := 2, path := "01-sb/basic-block", isDirectory := false }

/-- `blockDirFile` as a directory (the shape the walker reports). -/
def blockDirEvent : WalkFile := { blockDirFile with isDirectory := true }

/-- A leaf event inside the same block. -/
def leafEvent : WalkFile :=
  { name := "c.md", depth := 3, path := "01-sb/basic-block/c.md", isDirectory := false }

/-- A one-superblock curriculum with no blocks. -/
def sbOnlyCurriculum : Curriculum :=
  [("sb", { superBlock := "sb", order := 1, blocks := [] })]

/-- Sample comment-dictionary inputs: one language, one translatable and one
non-translatable comment. -/
def c5Langs : List String := ["spanish"]

/-- The Spanish dictionary of the sample. -/
def c5DictOf : String → List CommentEntry := fun _ => [{ id := "c1", text := "hola" }]

/-- The sample canonical translatable list. -/
def c5ToTranslate : List CommentEntry := [{ id := "c1", text := "hello" }]

/-- The sample canonical non-translatable list. -/
def c5ToNot : List CommentEntry := [{ id := "n1", text := "keep" }]

/-- The comment map the sample inputs build. -/
def c5OkMap : CMap :=
  [("hello", [("spanish", "hola")]), ("keep", [("spanish", "keep")])]

/-! # Theorems -/

/-! ## Association lists -/

theorem assocGet_assocSet_self {β : Type} (l : List (String × β)) (k : String) (v : β) :
    assocGet (assocSet l k v) k = some v := by
  induction l with
  | nil => simp [assocGet, assocSet]
  | cons q l ih =>
    by_cases hq : q.1 == k
    · simp [assocGet, assocSet, hq]
    · simp [assocGet, assocSet, hq, ih]

theorem assocGet_assocSet_ne {β : Type} (l : List (String × β)) (k k' : String) (v : β)
    (h : k' ≠ k) : assocGet (assocSet l k v) k' = assocGet l k' := by
  induction l with
  | nil => simp [assocGet, assocSet, Ne.symm h]
  | cons q l ih =>
    by_cases hq : q.1 == k
    · have : ¬(k == k') := fun he => h (eq_of_beq he).symm
      simp [assocGet, assocSet, hq, this, eq_of_beq hq]
    · by_cases hq' : q.1 == k'
      · simp [assocGet, assocSet, hq, hq']
      · simp [assocGet, assocSet, hq, hq', ih]

/-- Members of `assocSet l k v` are the new pair or members of `l`. -/
theorem mem_of_mem_assocSet {β : Type} {l : List (String × β)} {k : String} {v : β}
    {p : String × β} (hp : p ∈ assocSet l k v) : p = (k, v) ∨ p ∈ l := by
  induction l with
  | nil => simpa [assocSet] using hp
  | cons q l ih =>
    by_cases hq : q.1 == k
    · simp only [assocSet, hq, if_pos] at hp
      rcases List.mem_cons.mp hp with h | h
      · exact Or.inl h
      · exact Or.inr (List.mem_cons_of_mem _ h)
    · simp only [assocSet, hq, Bool.false_eq_true, if_false] at hp
      rcases List.mem_cons.mp hp with h | h
      · exact Or.inr (by simp [h])
      · rcases ih h with h' | h'
        · exact Or.inl h'
        · exact Or.inr (List.mem_cons_of_mem _ h')

/-- Members of `jsSpreadMerge a b` come from `a` or from `b`. -/
theorem mem_of_mem_jsSpreadMerge {β : Type} (a : List (String × β)) {b : List (String × β)}
    {p : String × β} (hp : p ∈ jsSpreadMerge a b) : p ∈ a ∨ p ∈ b := by
  induction b generalizing a with
  | nil => exact Or.inl hp
  | cons kv b ih =>
    rcases ih (assocSet a kv.1 kv.2) hp with h | h
    · rcases mem_of_mem_assocSet h with h' | h'
      · exact Or.inr (by simp [h'])
      · exact Or.inl h'
    · exact Or.inr (List.mem_cons_of_mem _ h)

/-- A successful lookup names a member. -/
theorem exists_mem_of_assocGet_eq_some {β : Type} {l : List (String × β)} {k : String} {v : β}
    (h : assocGet l k = some v) : ∃ p ∈ l, p.1 = k ∧ p.2 = v := by
  induction l with
  | nil => simp [assocGet] at h
  | cons q l ih =>
    by_cases hq : q.1 == k
    · simp only [assocGet, hq, if_pos, Option.some.injEq] at h
      exact ⟨q, by simp, eq_of_beq hq, h⟩
    · simp only [assocGet, hq, Bool.false_eq_true, if_false] at h
      obtain ⟨p, hp, hpk, hpv⟩ := ih h
      exact ⟨p, List.mem_cons_of_mem _ hp, hpk, hpv⟩

/-- Writing a sequence of entries that all agree on key `k` about the value
`v` produces a map that reads `v` at `k`, provided `k` is written at least
once or already reads `v`. -/
theorem assocGet_jsSpreadMerge {β : Type} (b a : List (String × β)) (k : String) (v : β)
    (hval : ∀ p ∈ b, p.1 = k → p.2 = v)
    (hsrc : assocGet a k = some v ∨ ∃ p ∈ b, p.1 = k) :
    assocGet (jsSpreadMerge a b) k = some v := by
  induction b generalizing a with
  | nil =>
    rcases hsrc with h | h
    · exact h
    · simp at h
  | cons kv b ih =>
    show assocGet (jsSpreadMerge (assocSet a kv.1 kv.2) b) k = some v
    by_cases hk : kv.1 = k
    · have hv : kv.2 = v := hval kv (by simp) hk
      refine ih _ (fun p hp hpk => hval p (List.mem_cons_of_mem _ hp) hpk) (Or.inl ?_)
      rw [hk, hv] at *
      exact assocGet_assocSet_self a k v
    · refine ih _ (fun p hp hpk => hval p (List.mem_cons_of_mem _ hp) hpk) ?_
      rcases hsrc with h | ⟨p, hp, hpk⟩
      · exact Or.inl (by rw [assocGet_assocSet_ne a kv.1 k kv.2 (fun he => hk he.symm)]; exact h)
      · rcases List.mem_cons.mp hp with rfl | hp'
        · exact absurd hpk hk
        · exact Or.inr ⟨p, hp', hpk⟩

/-! ## Strings -/

theorem string_data_append (s t : String) : (s ++ t).data = s.data ++ t.data := by
  cases s; cases t; rfl

theorem splitOnChar_ne_nil (c : Char) (cs : List Char) : splitOnChar c cs ≠ [] := by
  cases cs with
  | nil => simp [splitOnChar]
  | cons a rest =>
    rw [splitOnChar]
    split
    · simp
    · split <;> simp

/-- Joining the groups of `splitOnChar` with the separator restores the
original character list. -/
theorem joinChar_splitOnChar (c : Char) (cs : List Char) :
    joinChar c (splitOnChar c cs) = cs := by
  induction cs with
  | nil => rfl
  | cons a rest ih =>
    rw [splitOnChar]
    by_cases hac : a == c
    · rw [if_pos hac]
      cases hr : splitOnChar c rest with
      | nil => exact absurd hr (splitOnChar_ne_nil c rest)
      | cons g gs =>
        rw [hr] at ih
        show [] ++ c :: joinChar c (g :: gs) = a :: rest
        rw [List.nil_append, ih, eq_of_beq hac]
    · rw [if_neg hac]
      cases hr : splitOnChar c rest with
      | nil => exact absurd hr (splitOnChar_ne_nil c rest)
      | cons g gs =>
        rw [hr] at ih
        cases gs with
        | nil =>
          show a :: g = a :: rest
          rw [show g = rest from ih]
        | cons g2 gs2 =>
          show (a :: g) ++ c :: joinChar c (g2 :: gs2) = a :: rest
          rw [List.cons_append]
          exact congrArg (List.cons a) ih

/-- `joinWith "-"` over `String.mk`-wrapped groups is `joinChar '-'` at the
data level. -/
theorem joinWith_dash_data (groups : List (List Char)) :
    (joinWith "-" (groups.map (fun g => String.mk g))).data = joinChar '-' groups := by
  induction groups with
  | nil => rfl
  | cons g gs ih =>
    cases gs with
    | nil => rfl
    | cons g2 gs2 =>
      show (String.mk g ++ "-" ++
        joinWith "-" ((g2 :: gs2).map (fun g => String.mk g))).data = g ++ '-' :: joinChar '-' (g2 :: gs2)
      rw [string_data_append, string_data_append, ih]
      simp

/-- Joining the groups of `jsSplit` restores the string (the split/join
round trip). -/
theorem joinWith_jsSplit (s : String) : joinWith "-" (jsSplit '-' s) = s := by
  have h := joinWith_dash_data (splitOnChar '-' s.data)
  rw [joinChar_splitOnChar] at h
  exact congrArg String.mk h

/-- When a string splits into a head group and a nonempty remainder, the
joined remainder is strictly shorter than the string, hence different. -/
theorem joinWith_rest_ne_self (s a : String) (rest : List String)
    (hsplit : jsSplit '-' s = a :: rest) (hrest : rest ≠ []) :
    joinWith "-" rest ≠ s := by
  intro hcontra
  have hs := joinWith_jsSplit s
  rw [hsplit] at hs
  cases rest with
  | nil => exact hrest rfl
  | cons b bs =>
    have hs' : a ++ "-" ++ joinWith "-" (b :: bs) = s := hs
    have hlen := congrArg (fun t => t.data.length) hs'
    rw [← hcontra] at hlen
    simp [string_data_append] at hlen
    omega

/-- `parseInt(a, 10)` on a string whose first character is a decimal digit
returns the value of the maximal leading digit run. -/
theorem parseInt10_digit_lead (a : String) (c : Char) (cs : List Char)
    (ha : a.data = c :: cs) (hc : c.isDigit = true) :
    parseInt10 a = some ((digitsToNat ((c :: cs).takeWhile Char.isDigit) : Nat) : Int) := by
  have hws : (c == ' ' || c == '\t' || c == '\n' || c == '\r') = false := by
    by_contra hsp
    rw [Bool.not_eq_false] at hsp
    simp only [Bool.or_eq_true, beq_iff_eq] at hsp
    rcases hsp with ((rfl | rfl) | rfl) | rfl <;> exact absurd hc (by decide)
  unfold parseInt10
  dsimp only
  rw [ha]
  rw [List.dropWhile_cons]
  rw [hws]
  simp only [Bool.false_eq_true, if_false]
  split
  · rename_i rest' heq
    exfalso
    injection heq with h1 _
    rw [h1] at hc
    exact absurd hc (by decide)
  · rename_i rest' heq
    exfalso
    injection heq with h1 _
    rw [h1] at hc
    exact absurd hc (by decide)
  · unfold parseDigits
    dsimp only
    rw [List.takeWhile_cons]
    simp [hc]

theorem mk_dot_ne_markdown (xs : List Char) : String.mk ('.' :: xs) ≠ "markdown" := by
  intro h
  have hd : '.' :: xs = "markdown".data := congrArg String.data h
  rw [show "markdown".data = ['m', 'a', 'r', 'k', 'd', 'o', 'w', 'n'] from rfl] at hd
  exact absurd (List.head_eq_of_cons_eq hd) (by decide)

/-- `path.extname` always returns either the empty string or a string that
starts with a dot, so it is never the bare word `markdown`. -/
theorem isCert_eq_false (p : String) : isCert p = false := by
  unfold isCert extname
  dsimp only
  split
  · rfl
  · split
    · rfl
    · split
      · rfl
      · exact beq_eq_false_iff_ne.mpr (mk_dot_ne_markdown _)

/-! ## lodash `findIndex` -/

theorem findIndexJsAux_eq {α : Type} (p : α → Bool) (l : List α) (i : Int) :
    findIndexJsAux p l i =
      match firstMatchingIndex p l with
      | some k => i + (k : Int)
      | none => -1 := by
  induction l generalizing i with
  | nil => simp [findIndexJsAux, firstMatchingIndex]
  | cons a l ih =>
    by_cases hp : p a
    · simp [findIndexJsAux, firstMatchingIndex, hp]
    · rw [findIndexJsAux, if_neg hp, ih, firstMatchingIndex, if_neg hp]
      cases h : firstMatchingIndex p l with
      | none => simp
      | some k =>
        simp only [Option.map_some']
        push_cast
        ring

/-- The lodash scan computes the index of the first matching entry, `-1` when
no entry matches. -/
theorem findIndexJs_eq {α : Type} (p : α → Bool) (l : List α) :
    findIndexJs p l =
      match firstMatchingIndex p l with
      | some k => (k : Int)
      | none => -1 := by
  rw [findIndexJs, findIndexJsAux_eq]
  cases firstMatchingIndex p l <;> simp

theorem firstMatchingIndex_eq_none {α : Type} (p : α → Bool) (l : List α)
    (h : ∀ a ∈ l, p a = false) : firstMatchingIndex p l = none := by
  induction l with
  | nil => rfl
  | cons a l ih =>
    rw [firstMatchingIndex, if_neg (by simp [h a (by simp)]), ih (fun a ha => h a (by simp [ha]))]
    rfl

/-! ## Comment dictionary lemmas -/

theorem getTranslationEntryAux_ok {engId text : String}
    {dicts : List (String × List CommentEntry)} {acc r : List (String × String)}
    (h : getTranslationEntryAux engId text dicts acc = .ok r) :
    ∀ p ∈ dicts, ∃ en, p.2.find? (fun e => e.id == engId) = some en := by
  induction dicts generalizing acc with
  | nil => simp
  | cons d rest ih =>
    obtain ⟨lang, entries⟩ := d
    rw [getTranslationEntryAux] at h
    intro p hp
    cases hf : entries.find? (fun e => e.id == engId) with
    | none => rw [hf] at h; exact absurd h (by simp)
    | some en =>
      rw [hf] at h
      rcases List.mem_cons.mp hp with rfl | hp'
      · exact ⟨en, hf⟩
      · exact ih h p hp'

theorem getTranslationEntryAux_error {engId text : String}
    {dicts : List (String × List CommentEntry)} {acc : List (String × String)} {m : String}
    (h : getTranslationEntryAux engId text dicts acc = .error m) :
    m = missingTranslationMsg text engId ∧
      ∃ p ∈ dicts, p.2.find? (fun e => e.id == engId) = none := by
  induction dicts generalizing acc with
  | nil => simp [getTranslationEntryAux] at h
  | cons d rest ih =>
    obtain ⟨lang, entries⟩ := d
    rw [getTranslationEntryAux] at h
    cases hf : entries.find? (fun e => e.id == engId) with
    | none =>
      rw [hf] at h
      simp only [Except.error.injEq] at h
      exact ⟨h.symm, ⟨(lang, entries), by simp, hf⟩⟩
    | some en =>
      rw [hf] at h
      obtain ⟨hm, p, hp, hnone⟩ := ih h
      exact ⟨hm, p, List.mem_cons_of_mem _ hp, hnone⟩

theorem getTranslationEntryAux_error_of_missing {engId text : String}
    {dicts : List (String × List CommentEntry)} (acc : List (String × String))
    (h : ∃ p ∈ dicts, p.2.find? (fun e => e.id == engId) = none) :
    getTranslationEntryAux engId text dicts acc = .error (missingTranslationMsg text engId) := by
  induction dicts generalizing acc with
  | nil => simp at h
  | cons d rest ih =>
    obtain ⟨lang, entries⟩ := d
    rw [getTranslationEntryAux]
    cases hf : entries.find? (fun e => e.id == engId) with
    | none => rfl
    | some en =>
      obtain ⟨p, hp, hnone⟩ := h
      rcases List.mem_cons.mp hp with rfl | hp'
      · exact absurd hf (by simp [hnone])
      · exact ih _ ⟨p, hp', hnone⟩

theorem translatedCommentMapAux_ok {dicts : List (String × List CommentEntry)}
    {toT : List CommentEntry} {acc m : CMap}
    (h : translatedCommentMapAux dicts toT acc = .ok m) :
    ∀ e ∈ toT, ∃ r, getTranslationEntry dicts e.id e.text = .ok r := by
  induction toT generalizing acc with
  | nil => simp
  | cons e rest ih =>
    rw [translatedCommentMapAux] at h
    cases hg : getTranslationEntry dicts e.id e.text with
    | ok r =>
      rw [hg] at h
      intro e' he'
      rcases List.mem_cons.mp he' with rfl | he''
      · exact ⟨r, hg⟩
      · exact ih h e' he''
    | error msg => rw [hg] at h; exact absurd h (by simp)

theorem translatedCommentMapAux_error_exists (dicts : List (String × List CommentEntry))
    {toT : List CommentEntry} (acc : CMap)
    (h : ∃ e ∈ toT, ∃ m, getTranslationEntry dicts e.id e.text = .error m) :
    ∃ e ∈ toT, (∃ p ∈ dicts, p.2.find? (fun en => en.id == e.id) = none) ∧
      translatedCommentMapAux dicts toT acc = .error (missingTranslationMsg e.text e.id) := by
  induction toT generalizing acc with
  | nil => simp at h
  | cons e rest ih =>
    rw [translatedCommentMapAux]
    cases hg : getTranslationEntry dicts e.id e.text with
    | error msg =>
      obtain ⟨hm, hbad⟩ := getTranslationEntryAux_error hg
      exact ⟨e, by simp, hbad, by rw [hm]⟩
    | ok r =>
      obtain ⟨e', he', m', hm'⟩ := h
      rcases List.mem_cons.mp he' with rfl | he''
      · rw [hg] at hm'; exact absurd hm' (by simp)
      · obtain ⟨e'', he''', hbad, herr⟩ := ih (assocSet acc e.text r) ⟨e', he'', m', hm'⟩
        exact ⟨e'', List.mem_cons_of_mem _ he''', hbad, herr⟩

/-! ## Claims -/

/-- C3: superblock order and name are derived from the order-dash-name
convention: `08-coding-interview-prep` resolves to order 8 and name
`coding-interview-prep`; `extra` resolves to order 0 with the whole
directory name; and every directory name whose first dash-segment does not
parse as an integer resolves to order 0 with the whole directory name. -/
theorem superBlockInfo_order_name_convention :
    superBlockInfo "08-coding-interview-prep" = { order := 8, name := "coding-interview-prep" } ∧
    superBlockInfo "extra" = { order := 0, name := "extra" } ∧
    ∀ s : String, parseInt10 ((jsSplit '-' s).headD "") = none →
      superBlockInfo s = { order := 0, name := s } := by
  refine ⟨by decide, by decide, ?_⟩
  intro s h
  unfold superBlockInfo
  cases hs : jsSplit '-' s with
  | nil => rfl
  | cons a rest =>
    rw [hs] at h
    rw [List.headD_cons] at h
    simp [h]

/-- Witness for C3 at the concrete name `hello-world`. -/
theorem superBlockInfo_order_name_convention_witness :
    parseInt10 ((jsSplit '-' "hello-world").headD "") = none ∧
      superBlockInfo "hello-world" = { order := 0, name := "hello-world" } :=
  ⟨by decide, superBlockInfo_order_name_convention.2.2 "hello-world" (by decide)⟩

/-- C10: every directory name that is a bare parsable numeric token (a
one-group split) resolves to that order with the empty string as name (`08`
to order 8, name `""`); and every name whose first dash-segment begins with
a decimal digit takes the value of the leading digit run as the order with
the remaining segments re-joined as the name — when a dash-separated
remainder exists this provably differs from the order-0-with-full-name
fallback (concretely, `3rd-party` resolves to order 3, not to order 0 with
name `3rd-party`). -/
theorem superBlockInfo_numeric_token_and_digit_lead :
    (∀ (s : String) (n : Int), jsSplit '-' s = [s] → parseInt10 s = some n →
      superBlockInfo s = { order := n, name := "" }) ∧
    (∀ (s a : String) (rest : List String) (c : Char) (cs : List Char),
      jsSplit '-' s = a :: rest → a.data = c :: cs → c.isDigit = true →
      superBlockInfo s =
        { order := (digitsToNat (a.data.takeWhile Char.isDigit) : Int)
          name := joinWith "-" rest } ∧
      (rest ≠ [] → superBlockInfo s ≠ { order := 0, name := s })) ∧
    superBlockInfo "08" = { order := 8, name := "" } ∧
    superBlockInfo "3rd-party" = { order := 3, name := "party" } ∧
    superBlockInfo "3rd-party" ≠ { order := 0, name := "3rd-party" } := by
  refine ⟨?_, ?_, by decide, by decide, by decide⟩
  · intro s n hs hn
    unfold superBlockInfo
    rw [hs]
    simp [hn, joinWith]
  · intro s a rest c cs hsplit ha hc
    have hpi := parseInt10_digit_lead a c cs ha hc
    have heq : superBlockInfo s =
        { order := (digitsToNat (a.data.takeWhile Char.isDigit) : Int)
          name := joinWith "-" rest } := by
      unfold superBlockInfo
      rw [hsplit]
      simp [ha, hpi]
    refine ⟨heq, ?_⟩
    intro hrest hcontra
    rw [heq] at hcontra
    exact joinWith_rest_ne_self s a rest hsplit hrest
      (congrArg SuperBlockInfo.name hcontra)

/-- Witness for C10's universal parts at the concrete names `08` and
`3rd-party`. -/
theorem superBlockInfo_numeric_token_and_digit_lead_witness :
    (jsSplit '-' "08" = ["08"] ∧ parseInt10 "08" = some 8 ∧
      superBlockInfo "08" = { order := 8, name := "" }) ∧
    jsSplit '-' "3rd-party" = ["3rd", "party"] ∧
    ("3rd" : String).data = '3' :: ['r', 'd'] ∧
    superBlockInfo "3rd-party" = { order := 3, name := "party" } ∧
    superBlockInfo "3rd-party" ≠ { order := 0, name := "3rd-party" } := by
  refine ⟨⟨by decide, by decide,
    superBlockInfo_numeric_token_and_digit_lead.1 "08" 8 (by decide) (by decide)⟩,
    by decide, by decide, ?_, ?_⟩
  · exact ((superBlockInfo_numeric_token_and_digit_lead.2.1 "3rd-party" "3rd" ["party"]
      '3' ['r', 'd'] (by decide) (by decide) (by decide)).1).trans (by decide)
  · exact (superBlockInfo_numeric_token_and_digit_lead.2.1 "3rd-party" "3rd" ["party"]
      '3' ['r', 'd'] (by decide) (by decide) (by decide)).2 (by decide)

/-- C1: the source compares `path.extname(filePath)` — which always carries
a leading dot — against the dotless string `markdown`, so `isCert` is false
for every path and the certificate parser is never invoked: even a file with
the certificate `.markdown` extension is dispatched to the standard parser
`parseMD` (here recognizable by the id of the challenge it returns).  This
contradicts the spec's dispatch-by-extension contract: the claim is right
about the intent and the code's comparison is the bug. -/
theorem isCert_dispatch_never_fires :
    (∀ p : String, isCert p = false) ∧
    isCert "01-sb/basic-block/certificate.markdown" = false ∧
    Except.map (fun c => c.id)
      (createChallenge sampleEnv "base" "english" "01-sb/basic-block/certificate.markdown" none) =
      .ok "from-parseMD" :=
  ⟨isCert_eq_false, isCert_eq_false _, rfl⟩

/-- C6: preparing a challenge whose `files` field is the single entry with
key `a`, empty `head`/`tail` arrays and contents `['x']` yields a keyed map
whose `a` entry has `contents = "x"` and `seed = "x"`, and the seed is an
independent copy: overwriting the prepared file's `contents` leaves `seed`
unchanged (in the source, `seed` is `contents.slice(0)`, a copy of an
immutable string). -/
theorem prepareChallenge_files_roundtrip (env : Env) (c : Challenge)
    (h : c.files = some [{ key := "a", head := .arr [], contents := .arr ["x"], tail := .arr [] }]) :
    ∃ pf : PreparedFile,
      (prepareChallenge env c).files = some [("a", pf)] ∧
      pf.contents = "x" ∧ pf.seed = "x" ∧
      ∀ s : String, { pf with contents := s }.seed = "x" := by
  refine ⟨{ key := "a", head := "", contents := "x", tail := "", seed := "x" },
    ?_, rfl, rfl, fun s => rfl⟩
  show (c.files.map (fun fs => prepareFiles (filesToObject fs))) = _
  rw [h]
  rfl

/-- Witness for C6 at the concrete round-trip challenge. -/
theorem prepareChallenge_files_roundtrip_witness :
    roundTripChallenge.files =
      some [{ key := "a", head := .arr [], contents := .arr ["x"], tail := .arr [] }] ∧
    ∃ pf : PreparedFile,
      (prepareChallenge sampleEnv roundTripChallenge).files = some [("a", pf)] ∧
      pf.contents = "x" ∧ pf.seed = "x" ∧
      ∀ s : String, { pf with contents := s }.seed = "x" :=
  ⟨rfl, prepareChallenge_files_roundtrip sampleEnv roundTripChallenge rfl⟩

/-- C7: when the parsed English challenge has challengeType 11 (video), the
translation merge skips comment translation — the English side reaches the
merge unmodified and the merged output's comments equal the translated
file's own comments; for every other challengeType, the English side's
comments are first rewritten into the target language via the comment
dictionary before merging. -/
theorem parseTranslation_video_skips_comments
    (parse : String → Challenge) (engPath transPath : String) (dict : CMap) (lang : String) :
    ((parse engPath).challengeType = 11 →
      parseTranslation parse engPath transPath dict lang =
        mergeChallenges (parse engPath) (parse transPath) ∧
      (parseTranslation parse engPath transPath dict lang).comments =
        (parse transPath).comments) ∧
    ((parse engPath).challengeType ≠ 11 →
      parseTranslation parse engPath transPath dict lang =
        mergeChallenges (translateCommentsInChallenge (parse engPath) lang dict)
          (parse transPath)) := by
  constructor
  · intro h11
    have heq : parseTranslation parse engPath transPath dict lang =
        mergeChallenges (parse engPath) (parse transPath) := by
      unfold parseTranslation
      simp [bne, h11]
    refine ⟨heq, ?_⟩
    rw [heq]
    unfold mergeChallenges
    simp [h11]
  · intro h11
    unfold parseTranslation
    simp [bne, h11]

/-- Witness for C7 at a concrete video challenge and translation. -/
theorem parseTranslation_video_skips_comments_witness :
    (videoParse "english-path").challengeType = 11 ∧
    (parseTranslation videoParse "english-path" "spanish-path" [] "spanish").comments =
      (videoParse "spanish-path").comments :=
  ⟨by decide,
    ((parseTranslation_video_skips_comments videoParse "english-path" "spanish-path" []
        "spanish").1 (by decide)).2⟩

/-! ## Message-content lemmas -/

theorem missingEnglishMsg_names_leaf (fp ep : String) :
    fp.data <:+: (missingEnglishMsg fp ep).data := by
  refine ⟨"Missing English challenge for\n".data,
    ("\nIt should be in\n" ++ ep ++ "\n").data, ?_⟩
  simp [missingEnglishMsg, string_data_append, List.append_assoc]

theorem missingEnglishMsg_names_english (fp ep : String) :
    ep.data <:+: (missingEnglishMsg fp ep).data := by
  refine ⟨("Missing English challenge for\n" ++ fp ++ "\nIt should be in\n").data,
    "\n".data, ?_⟩
  simp [missingEnglishMsg, string_data_append, List.append_assoc]

theorem missingUpcomingChangeMsg_names_path (mp : String) :
    mp.data <:+: (missingUpcomingChangeMsg mp).data := by
  refine ⟨"meta file at ".data,
    (" is missing " ++ "'isUpcomingChange', it must be " ++ "'true' or 'false'").data, ?_⟩
  simp [missingUpcomingChangeMsg, string_data_append, List.append_assoc]

theorem missingTranslationMsg_names_text (text engId : String) :
    text.data <:+: (missingTranslationMsg text engId).data := by
  refine ⟨"Missing translation for comment\n'".data,
    ("'\n        with id of " ++ engId).data, ?_⟩
  simp [missingTranslationMsg, string_data_append, List.append_assoc]

theorem missingTranslationMsg_names_id (text engId : String) :
    engId.data <:+: (missingTranslationMsg text engId).data := by
  refine ⟨("Missing translation for comment\n'" ++ text ++ "'\n        with id of ").data,
    [], ?_⟩
  simp [missingTranslationMsg, string_data_append, List.append_assoc]

/-! ## Claims (continued) -/

/-- C4 counterexample: the claim quantifies over every non-English language,
but for a language outside the supported set — here `klingon`, with the
English counterpart absent — `createChallenge` throws the
unsupported-language error first, and that message does not name the
expected English path, contradicting the claim as stated. -/
theorem createChallenge_unsupported_lang_counterexample :
    noEnglishEnv.hasEnglishSource "01-sb/basic-block/basic.md" = false ∧
    createChallenge noEnglishEnv "base" "klingon" "01-sb/basic-block/basic.md" none =
      .error (unsupportedLangMsg "klingon" "01-sb/basic-block/basic.md") ∧
    ¬ ((getFullPath "base" "english" "01-sb/basic-block/basic.md").data <:+:
        (unsupportedLangMsg "klingon" "01-sb/basic-block/basic.md").data) :=
  ⟨rfl, rfl, by decide⟩

/-- C4 (amended): for every supported non-English language, a leaf without
an English counterpart fails with the missing-English error, whose message
names the leaf's path and the expected English path; when the counterpart
exists, creation succeeds and no error is raised.  (For languages outside
the supported set the unsupported-language error is thrown before the
English check, so the original claim's universal quantification over all
non-English languages fails.) -/
theorem createChallenge_missing_english (env : Env) (basePath lang filePath : String)
    (maybeMeta : Option ChallengeMeta)
    (hlang : supportedLangs.contains lang = true) (hne : lang ≠ "english") :
    (env.hasEnglishSource filePath = false →
      createChallenge env basePath lang filePath maybeMeta =
        .error (missingEnglishMsg filePath (getFullPath basePath "english" filePath)) ∧
      filePath.data <:+:
        (missingEnglishMsg filePath (getFullPath basePath "english" filePath)).data ∧
      (getFullPath basePath "english" filePath).data <:+:
        (missingEnglishMsg filePath (getFullPath basePath "english" filePath)).data) ∧
    (env.hasEnglishSource filePath = true →
      ∃ p : PreparedChallenge,
        createChallenge env basePath lang filePath maybeMeta = .ok p) := by
  have hb : (lang != "english") = true := bne_iff_ne.mpr hne
  have hmem : lang ∈ supportedLangs := by simpa using hlang
  constructor
  · intro hno
    refine ⟨?_, missingEnglishMsg_names_leaf _ _, missingEnglishMsg_names_english _ _⟩
    unfold createChallenge
    simp [hmem, hb, hno]
  · intro hyes
    cases hres : createChallenge env basePath lang filePath maybeMeta with
    | ok p => exact ⟨p, rfl⟩
    | error msg =>
      exfalso
      unfold createChallenge at hres
      simp [hmem, hb, hyes] at hres

/-- Witness for C4 (amended): `spanish` with the English counterpart absent
hits the missing-English error. -/
theorem createChallenge_missing_english_witness :
    noEnglishEnv.hasEnglishSource "01-sb/basic-block/basic.md" = false ∧
    createChallenge noEnglishEnv "base" "spanish" "01-sb/basic-block/basic.md" none =
      .error (missingEnglishMsg "01-sb/basic-block/basic.md"
        (getFullPath "base" "english" "01-sb/basic-block/basic.md")) :=
  ⟨rfl,
    ((createChallenge_missing_english noEnglishEnv "base" "spanish" "01-sb/basic-block/basic.md"
        none (by decide) (by decide)).1 rfl).1⟩

/-- C9: for every created challenge, the stored `challengeOrder` is the
index of the first entry of the block metadata's `challengeOrder` list whose
id equals the parsed challenge's id, and `-1` — stored unchanged on the
prepared challenge — when no entry matches. -/
theorem createChallenge_challengeOrder_index (env : Env) (basePath lang filePath : String)
    (maybeMeta : Option ChallengeMeta)
    (hlang : supportedLangs.contains lang = true)
    (heng : lang = "english" ∨ env.hasEnglishSource filePath = true) :
    ∃ p : PreparedChallenge,
      createChallenge env basePath lang filePath maybeMeta = .ok p ∧
      p.challengeOrder =
        (match firstMatchingIndex
            (fun e => e.id == (parsedChallenge env basePath lang filePath).id)
            (effectiveMeta env filePath maybeMeta).challengeOrder with
        | some k => (k : Int)
        | none => -1) ∧
      ((∀ e ∈ (effectiveMeta env filePath maybeMeta).challengeOrder,
          e.id ≠ (parsedChallenge env basePath lang filePath).id) →
        p.challengeOrder = -1) := by
  have hcond : (lang != "english" && !(env.hasEnglishSource filePath)) = false := by
    rcases heng with rfl | h
    · simp
    · simp [h]
  have hmem : lang ∈ supportedLangs := by simpa using hlang
  refine ⟨prepareChallenge env (decoratedChallenge env basePath lang filePath maybeMeta),
    ?_, ?_, ?_⟩
  · unfold createChallenge
    simp [hmem, hcond]
  · exact findIndexJs_eq _ _
  · intro hnone
    have heq := findIndexJs_eq
      (fun e => e.id == (parsedChallenge env basePath lang filePath).id)
      (effectiveMeta env filePath maybeMeta).challengeOrder
    rw [firstMatchingIndex_eq_none _ _
      (fun a ha => beq_eq_false_iff_ne.mpr (hnone a ha))] at heq
    exact heq

/-- Witness for C9: with a `challengeOrder` list naming no parsed id, the
stored index is `-1`. -/
theorem createChallenge_challengeOrder_index_witness :
    ∃ p : PreparedChallenge,
      createChallenge sampleEnv "base" "english" "01-sb/basic-block/c.md" (some orderMeta) =
        .ok p ∧
      p.challengeOrder = -1 := by
  obtain ⟨p, hok, _, hnone⟩ := createChallenge_challengeOrder_index sampleEnv "base" "english"
    "01-sb/basic-block/c.md" (some orderMeta) (by decide) (Or.inl rfl)
  exact ⟨p, hok, hnone (by decide)⟩

/-- C8: processing a depth-2 block directory whose metadata descriptor lacks
a boolean-typed `isUpcomingChange` throws an error whose message names the
metadata file path; with a boolean `isUpcomingChange` the call never throws
any error. -/
theorem buildCurriculum_requires_isUpcomingChange (env : Env) (basePath lang : String)
    (file : WalkFile) (curriculum : Curriculum)
    (hd : file.depth = 2) (hdir : file.isDirectory = true) :
    ((env.metaFor (getBlockNameFromPath file.path)).isUpcomingChange = none →
      buildCurriculum env basePath lang file curriculum =
        .err (missingUpcomingChangeMsg (metaPathOf (getBlockNameFromPath file.path))) ∧
      (metaPathOf (getBlockNameFromPath file.path)).data <:+:
        (missingUpcomingChangeMsg (metaPathOf (getBlockNameFromPath file.path))).data) ∧
    ∀ b : Bool, (env.metaFor (getBlockNameFromPath file.path)).isUpcomingChange = some b →
      ∀ msg : String, buildCurriculum env basePath lang file curriculum ≠ .err msg := by
  constructor
  · intro hnone
    refine ⟨?_, missingUpcomingChangeMsg_names_path _⟩
    unfold buildCurriculum
    simp [hd, hdir, hnone]
  · intro b hb msg hcontra
    unfold buildCurriculum at hcontra
    simp [hd, hdir, hb] at hcontra
    split at hcontra
    · split at hcontra
      · simp at hcontra
      · simp at hcontra
    · simp at hcontra

/-- Witness for C8: a block metadata descriptor without the boolean throws
the descriptive error. -/
theorem buildCurriculum_requires_isUpcomingChange_witness :
    (noBooleanEnv.metaFor (getBlockNameFromPath blockDirEvent.path)).isUpcomingChange = none ∧
    buildCurriculum noBooleanEnv "challenges" "english" blockDirEvent sbOnlyCurriculum =
      .err (missingUpcomingChangeMsg (metaPathOf (getBlockNameFromPath blockDirEvent.path))) :=
  ⟨rfl,
    ((buildCurriculum_requires_isUpcomingChange noBooleanEnv "challenges" "english" blockDirEvent
        sbOnlyCurriculum rfl rfl).1 rfl).1⟩

/-- C2: with `SHOW_UPCOMING_CHANGES` unset, a depth-2 block directory whose
metadata declares `isUpcomingChange: true` leaves the curriculum unchanged
(the block is not added to its superblock), and a leaf of that block —
whose superblock exists but whose block is absent — is skipped silently:
the call returns the curriculum unchanged with no error. -/
theorem buildCurriculum_upcoming_block_excluded (env : Env) (basePath lang : String)
    (dirFile leafFile : WalkFile) (curriculum : Curriculum) (sbEntry : SuperBlockEntry)
    (henv : env.showUpcomingChangesVar = none)
    (hd : dirFile.depth = 2) (hdir : dirFile.isDirectory = true)
    (hmeta : (env.metaFor (getBlockNameFromPath dirFile.path)).isUpcomingChange = some true)
    (hleafdir : leafFile.isDirectory = false)
    (hname1 : leafFile.name ≠ "meta.json") (hname2 : leafFile.name ≠ ".DS_Store")
    (_hsameblock : getBlockNameFromPath leafFile.path = getBlockNameFromPath dirFile.path)
    (hsb : assocGet curriculum (superBlockInfoFromPath leafFile.path).name = some sbEntry)
    (hblk : assocGet sbEntry.blocks (getBlockNameFromPath leafFile.path) = none) :
    buildCurriculum env basePath lang dirFile curriculum = .ok curriculum ∧
    buildCurriculum env basePath lang leafFile curriculum = .ok curriculum := by
  have hc : ((none : Option String) == some "true") = false := rfl
  constructor
  · unfold buildCurriculum
    simp [hd, hdir, hmeta, henv, hc]
  · unfold buildCurriculum
    simp [hleafdir, hname1, hname2, hsb, hblk]

/-- Witness for C2 at a concrete upcoming-change block and one of its
leaves. -/
theorem buildCurriculum_upcoming_block_excluded_witness :
    (upcomingEnv.metaFor (getBlockNameFromPath blockDirEvent.path)).isUpcomingChange =
      some true ∧
    buildCurriculum upcomingEnv "challenges" "english" blockDirEvent sbOnlyCurriculum =
      .ok sbOnlyCurriculum ∧
    buildCurriculum upcomingEnv "challenges" "english" leafEvent sbOnlyCurriculum =
      .ok sbOnlyCurriculum := by
  refine ⟨rfl, ?_⟩
  exact buildCurriculum_upcoming_block_excluded upcomingEnv "challenges" "english" blockDirEvent
    leafEvent sbOnlyCurriculum { superBlock := "sb", order := 1, blocks := [] }
    rfl rfl rfl rfl rfl (by decide) (by decide) (by decide) (by decide) (by decide)

/-- C5: building the comment map requires, for every comment of the
canonical translatable list and every language holding a dictionary, an
id-matched entry in that language's dictionary (success implies all entries
exist); when some translatable comment lacks an entry in some language's
dictionary, construction fails with an error naming that comment's text and
id; and in a successfully built map every non-translatable comment maps to
itself for every language. -/
theorem createCommentMap_requires_translations (langs : List String)
    (dictOf : String → List CommentEntry) (toTranslate toNot : List CommentEntry) :
    (∀ m : CMap, createCommentMap langs dictOf toTranslate toNot = .ok m →
      ∀ e ∈ toTranslate, ∀ lang ∈ langs,
        ∃ en, (dictOf lang).find? (fun d => d.id == e.id) = some en) ∧
    ((∃ e ∈ toTranslate, ∃ lang ∈ langs,
        (dictOf lang).find? (fun d => d.id == e.id) = none) →
      ∃ e ∈ toTranslate,
        (∃ lang ∈ langs, (dictOf lang).find? (fun d => d.id == e.id) = none) ∧
        createCommentMap langs dictOf toTranslate toNot =
          .error (missingTranslationMsg e.text e.id) ∧
        e.text.data <:+: (missingTranslationMsg e.text e.id).data ∧
        e.id.data <:+: (missingTranslationMsg e.text e.id).data) ∧
    (∀ m : CMap, createCommentMap langs dictOf toTranslate toNot = .ok m →
      ∀ e ∈ toNot, ∀ lang ∈ langs, lookupComment m e.text lang = some e.text) := by
  refine ⟨?_, ?_, ?_⟩
  · intro m hm e he lang hl
    unfold createCommentMap at hm
    dsimp only at hm
    cases ht : translatedCommentMapAux (langs.map (fun lang => (lang, dictOf lang)))
        toTranslate [] with
    | error msg => rw [ht] at hm; exact absurd hm (by simp)
    | ok tmap =>
      obtain ⟨r, hr⟩ := translatedCommentMapAux_ok ht e he
      have := getTranslationEntryAux_ok hr (lang, dictOf lang)
        (List.mem_map.mpr ⟨lang, hl, rfl⟩)
      exact this
  · rintro ⟨e, he, lang, hl, hnone⟩
    have herr : getTranslationEntry (langs.map (fun lang => (lang, dictOf lang))) e.id e.text =
        .error (missingTranslationMsg e.text e.id) :=
      getTranslationEntryAux_error_of_missing []
        ⟨(lang, dictOf lang), List.mem_map.mpr ⟨lang, hl, rfl⟩, hnone⟩
    obtain ⟨e', he', ⟨p, hp, hpnone⟩, haux⟩ :=
      translatedCommentMapAux_error_exists (langs.map (fun lang => (lang, dictOf lang)))
        [] ⟨e, he, _, herr⟩
    obtain ⟨l', hl', hpe⟩ := List.mem_map.mp hp
    refine ⟨e', he', ⟨l', hl', ?_⟩, ?_,
      missingTranslationMsg_names_text _ _, missingTranslationMsg_names_id _ _⟩
    · rw [← show (l', dictOf l').2 = dictOf l' from rfl, hpe]
      exact hpnone
    · unfold createCommentMap
      dsimp only
      rw [haux]
  · intro m hm e he lang hl
    unfold createCommentMap at hm
    dsimp only at hm
    cases ht : translatedCommentMapAux (langs.map (fun lang => (lang, dictOf lang)))
        toTranslate [] with
    | error msg => rw [ht] at hm; exact absurd hm (by simp)
    | ok tmap =>
      rw [ht] at hm
      simp only [Except.ok.injEq] at hm
      subst hm
      have hvalpairs : ∀ p ∈ (toNot.map (fun e => (e.text, englishEntryFor langs e.text))),
          p.1 = e.text → p.2 = englishEntryFor langs e.text := by
        intro p hp hpk
        obtain ⟨e'', _, hpe⟩ := List.mem_map.mp hp
        rw [← hpe] at hpk ⊢
        simp only at hpk ⊢
        rw [hpk]
      have huntr : assocGet (untranslatableCommentMap langs toNot) e.text =
          some (englishEntryFor langs e.text) := by
        unfold untranslatableCommentMap
        exact assocGet_jsSpreadMerge _ [] _ _ hvalpairs
          (Or.inr ⟨(e.text, englishEntryFor langs e.text),
            List.mem_map.mpr ⟨e, he, rfl⟩, rfl⟩)
      obtain ⟨pm, hpm, hpmk⟩ := exists_mem_of_assocGet_eq_some huntr
      have hm : assocGet (jsSpreadMerge tmap (untranslatableCommentMap langs toNot)) e.text =
          some (englishEntryFor langs e.text) := by
        refine assocGet_jsSpreadMerge _ _ _ _ ?_ (Or.inr ⟨pm, hpm, hpmk.1⟩)
        intro p hp hpk
        rcases mem_of_mem_jsSpreadMerge [] hp with h0 | h0
        · simp at h0
        · exact hvalpairs p h0 hpk
      have hlang : assocGet (englishEntryFor langs e.text) lang = some e.text := by
        unfold englishEntryFor
        refine assocGet_jsSpreadMerge _ [] _ _ ?_
          (Or.inr ⟨(lang, e.text), List.mem_map.mpr ⟨lang, hl, rfl⟩, rfl⟩)
        intro p hp _
        obtain ⟨l'', _, hpe⟩ := List.mem_map.mp hp
        rw [← hpe]
      unfold lookupComment
      rw [hm]
      exact hlang

/-- Witness for C5 at a one-language sample: the success direction applied
to the concretely built map. -/
theorem createCommentMap_requires_translations_witness :
    createCommentMap c5Langs c5DictOf c5ToTranslate c5ToNot = .ok c5OkMap ∧
    (∃ en, (c5DictOf "spanish").find? (fun d => d.id == "c1") = some en) ∧
    lookupComment c5OkMap "keep" "spanish" = some "keep" := by
  refine ⟨by decide, ?_, ?_⟩
  · exact (createCommentMap_requires_translations c5Langs c5DictOf c5ToTranslate c5ToNot).1
      c5OkMap (by decide) { id := "c1", text := "hello" } (by decide) "spanish" (by decide)
  · exact (createCommentMap_requires_translations c5Langs c5DictOf c5ToTranslate c5ToNot).2.2
      c5OkMap (by decide) { id := "n1", text := "keep" } (by decide) "spanish" (by decide)

end FCC
